import Mathlib

/-!
Verification of the RTT control-plane core (noa-server repository).

This file gives a shallow embedding, in Lean 4, of the hash / canonical-JSON /
WAL / plan-verification / CAS / policy code of the repository, and proves or
refutes the frozen specification claims about it.

Conventions of the embedding:

* Machine bytes are `Nat` values below 256; 32-bit words are `Nat` values
  reduced modulo `2 ^ 32` wherever overflow matters.
* Python strings appearing in hashes are ASCII in every use modelled here, so
  UTF-8 encoding is the identity on code points (`Char.toNat`).
* `json.dumps(x, sort_keys=True, separators=(',', ':'))` is modelled by
  `Rtt.dumps (Rtt.canon x)`; Python's `ensure_ascii` flag only affects
  non-ASCII strings and is therefore irrelevant to the modelled values.
* Fallible Python functions (functions that raise) become `Except`-valued
  Lean functions; the distinct exception classes become constructors of the
  error types.
-/

set_option maxRecDepth 40000
set_option linter.unreachableTactic false
set_option linter.unusedTactic false

namespace Rtt

/-! ## SHA-256 over `Nat` bytes (hashlib.sha256 model)

A byte-level, executable SHA-256 (FIPS 180-4), used by the embedding of
`validation.compute_secure_hash`, `authentication.verify_plan_integrity` and
`cas_ingest.sha256_bytes`.  Words are `Nat` reduced mod `2 ^ 32`. -/

/-- Modulus of 32-bit words. -/
def w32 : Nat := 4294967296

/-- Truncate to a 32-bit word. -/
def m32 (x : Nat) : Nat := x % w32

/-- 32-bit right rotation. -/
def rotr32 (x n : Nat) : Nat := m32 ((x >>> n) ||| (x <<< (32 - n)))

/-- SHA-256 `Ch`. -/
def shaCh (x y z : Nat) : Nat := (x &&& y) ^^^ ((x ^^^ 4294967295) &&& z)

/-- SHA-256 `Maj`. -/
def shaMaj (x y z : Nat) : Nat := (x &&& y) ^^^ (x &&& z) ^^^ (y &&& z)

/-- SHA-256 `Σ₀`. -/
def bsig0 (x : Nat) : Nat := rotr32 x 2 ^^^ rotr32 x 13 ^^^ rotr32 x 22

/-- SHA-256 `Σ₁`. -/
def bsig1 (x : Nat) : Nat := rotr32 x 6 ^^^ rotr32 x 11 ^^^ rotr32 x 25

/-- SHA-256 `σ₀`. -/
def ssig0 (x : Nat) : Nat := rotr32 x 7 ^^^ rotr32 x 18 ^^^ (x >>> 3)

/-- SHA-256 `σ₁`. -/
def ssig1 (x : Nat) : Nat := rotr32 x 17 ^^^ rotr32 x 19 ^^^ (x >>> 10)

/-- The 64 SHA-256 round constants. -/
def shaK : List Nat :=
  [1116352408, 1899447441, 3049323471, 3921009573, 961987163,
   1508970993, 2453635748, 2870763221, 3624381080, 310598401,
   607225278, 1426881987, 1925078388, 2162078206, 2614888103,
   3248222580, 3835390401, 4022224774, 264347078, 604807628,
   770255983, 1249150122, 1555081692, 1996064986, 2554220882,
   2821834349, 2952996808, 3210313671, 3336571891, 3584528711,
   113926993, 338241895, 666307205, 773529912, 1294757372,
   1396182291, 1695183700, 1986661051, 2177026350, 2456956037,
   2730485921, 2820302411, 3259730800, 3345764771, 3516065817,
   3600352804, 4094571909, 275423344, 430227734, 506948616,
   659060556, 883997877, 958139571, 1322822218, 1537002063,
   1747873779, 1955562222, 2024104815, 2227730452, 2361852424,
   2428436474, 2756734187, 3204031479, 3329325298]

/-- The eight SHA-256 initial hash values. -/
def shaIV : List Nat :=
  [1779033703, 3144134277, 1013904242, 2773480762,
   1359893119, 2600822924, 528734635, 1541459225]

/-- Big-endian 8-byte encoding of a (bit-)length. -/
def u64beBytes (x : Nat) : List Nat :=
  [(x >>> 56) % 256, (x >>> 48) % 256, (x >>> 40) % 256, (x >>> 32) % 256,
   (x >>> 24) % 256, (x >>> 16) % 256, (x >>> 8) % 256, x % 256]

/-- SHA-256 padding: `0x80`, zeros, then the 64-bit big-endian bit length. -/
def shaPad (msg : List Nat) : List Nat :=
  let len := msg.length
  let zeros := (56 + 64 - (len + 1) % 64) % 64
  msg ++ [128] ++ List.replicate zeros 0 ++ u64beBytes (8 * len)

/-- Group bytes four at a time into big-endian 32-bit words. -/
def bytesToWords : List Nat → List Nat
  | b0 :: b1 :: b2 :: b3 :: rest =>
      (b0 * 16777216 + b1 * 65536 + b2 * 256 + b3) :: bytesToWords rest
  | _ => []

/-- Extend a 16-word block to the full 64-word message schedule. -/
def shaExtend (w : Array Nat) (steps : Nat) : Array Nat :=
  match steps with
  | 0 => w
  | n + 1 =>
      let t := w.size
      let nw := m32 (ssig1 (w.getD (t - 2) 0) + w.getD (t - 7) 0 +
                     ssig0 (w.getD (t - 15) 0) + w.getD (t - 16) 0)
      shaExtend (w.push nw) n

/-- One round of the SHA-256 compression function on the 8-word state. -/
def shaRound (st : List Nat) (kt wt : Nat) : List Nat :=
  match st with
  | [a, b, c, d, e, f, g, h] =>
      let t1 := m32 (h + bsig1 e + shaCh e f g + kt + wt)
      let t2 := m32 (bsig0 a + shaMaj a b c)
      [m32 (t1 + t2), a, b, c, m32 (d + t1), e, f, g]
  | other => other

/-- Run the 64 compression rounds over the paired constants and schedule. -/
def shaRounds (st : List Nat) : List (Nat × Nat) → List Nat
  | [] => st
  | (kt, wt) :: rest => shaRounds (shaRound st kt wt) rest

/-- Compress one 16-word block into the running state. -/
def shaCompress (st : List Nat) (ws : List Nat) : List Nat :=
  let w := shaExtend (Array.mk ws) 48
  let out := shaRounds st (shaK.zip w.toList)
  (st.zip out).map (fun p => m32 (p.1 + p.2))

/-- Split the word stream of a padded message into 16-word blocks. -/
def blocksOf16 : List Nat → List (List Nat)
  | w0 :: w1 :: w2 :: w3 :: w4 :: w5 :: w6 :: w7 ::
    w8 :: w9 :: w10 :: w11 :: w12 :: w13 :: w14 :: w15 :: rest =>
      [w0, w1, w2, w3, w4, w5, w6, w7, w8, w9, w10, w11, w12, w13, w14, w15] ::
        blocksOf16 rest
  | _ => []

/-- SHA-256 digest (32 raw bytes) of a byte list. -/
def sha256 (msg : List Nat) : List Nat :=
  let final := (blocksOf16 (bytesToWords (shaPad msg))).foldl shaCompress shaIV
  final.flatMap (fun word =>
    [(word >>> 24) % 256, (word >>> 16) % 256, (word >>> 8) % 256, word % 256])

/-- Lower-case hex alphabet, digit `i` as its ASCII character. -/
def hexDigits : List Char :=
  (List.range 16).map (fun i => Char.ofNat (if i < 10 then 48 + i else 87 + i))

/-- Two lower-case hex characters of one byte. -/
def hexByte (b : Nat) : List Char :=
  [hexDigits.getD (b / 16) '0', hexDigits.getD (b % 16) '0']

/-- Lower-case hex string of a byte list (`.hexdigest()`). -/
def hexOfBytes (bs : List Nat) : String :=
  String.mk (bs.flatMap hexByte)

/-- UTF-8 bytes of an ASCII string (`str.encode('utf-8')`); the identity on
code points, which is exact for the ASCII strings this system hashes. -/
def strBytes (s : String) : List Nat :=
  s.toList.map Char.toNat

/-- `hashlib.sha256(b).hexdigest()`. -/
def sha256Hex (msg : List Nat) : String := hexOfBytes (sha256 msg)

end Rtt

namespace Rtt

/-! ## Canonical JSON (json.dumps with sort_keys=True, separators=(',', ':'))

The JSON values this system serializes: objects are insertion-ordered
association lists, exactly like Python dicts.  `canon` sorts object keys
recursively (Python's `sort_keys=True`); `dumps` serializes with compact
separators.  Numbers are the integers actually used by the modelled inputs
(Python prints an `int` as its decimal digits, which `toString : Int → String`
reproduces). -/

inductive Json where
  | null
  | bool (b : Bool)
  | num (n : Int)
  | str (s : String)
  | arr (elems : List Json)
  | obj (fields : List (String × Json))

/-- Lexicographic strict order on char lists by code point, Python's `<` on
strings. -/
def charListLt : List Char → List Char → Bool
  | _, [] => false
  | [], _ :: _ => true
  | a :: as, b :: bs => if a < b then true else if a = b then charListLt as bs else false

/-- Python's `<` on strings. -/
def strLtB (a b : String) : Bool := charListLt a.toList b.toList

/-- Python's `<=` on strings. -/
def strLeB (a b : String) : Bool := strLtB a b || a == b

/-- Sort-key comparison on object fields (`sorted` compares the key strings). -/
def fieldLe (p q : String × Json) : Prop := strLeB p.1 q.1 = true

instance instDecFieldLe : DecidableRel fieldLe :=
  fun p q => inferInstanceAs (Decidable (strLeB p.1 q.1 = true))

/-- Strict sort-key comparison on object fields. -/
def fieldLt (p q : String × Json) : Prop := strLtB p.1 q.1 = true

mutual

/-- Recursively sort all object keys, the value-level content of
`sort_keys=True`. -/
def canon : Json → Json
  | .null => .null
  | .bool b => .bool b
  | .num n => .num n
  | .str s => .str s
  | .arr xs => .arr (canonList xs)
  | .obj fs => .obj (List.insertionSort fieldLe (canonFields fs))

/-- `canon` mapped over array elements. -/
def canonList : List Json → List Json
  | [] => []
  | x :: xs => canon x :: canonList xs

/-- `canon` mapped over object values. -/
def canonFields : List (String × Json) → List (String × Json)
  | [] => []
  | (k, v) :: rest => (k, canon v) :: canonFields rest

end

/-- The character `{`. -/
def lbrace : Char := Char.ofNat 123

/-- The character `}`. -/
def rbrace : Char := Char.ofNat 125

/-- JSON string escaping of one character, as Python's encoder emits it. -/
def escChar (c : Char) : List Char :=
  if c = '"' then ['\\', '"']
  else if c = '\\' then ['\\', '\\']
  else if c = '\n' then ['\\', 'n']
  else if c = '\t' then ['\\', 't']
  else if c = '\r' then ['\\', 'r']
  else if c.toNat = 8 then ['\\', 'b']
  else if c.toNat = 12 then ['\\', 'f']
  else if c.toNat < 32 then '\\' :: 'u' :: '0' :: '0' :: hexByte c.toNat
  else [c]

/-- A JSON string literal with quotes and escapes. -/
def dumpStr (s : String) : String :=
  String.mk ('"' :: s.toList.flatMap escChar ++ ['"'])

mutual

/-- Serialization with compact separators `(',', ':')`, fields in the order
they sit in the object; `dumps (canon x)` is the full canonical form. -/
def dumps : Json → String
  | .null => "null"
  | .bool b => cond b "true" "false"
  | .num n => toString n
  | .str s => dumpStr s
  | .arr xs => "[" ++ dumpsList xs ++ "]"
  | .obj fs => String.mk [lbrace] ++ dumpsFields fs ++ String.mk [rbrace]

/-- Comma-joined serialization of array elements. -/
def dumpsList : List Json → String
  | [] => ""
  | [x] => dumps x
  | x :: y :: rest => dumps x ++ "," ++ dumpsList (y :: rest)

/-- Comma-joined serialization of `key:value` pairs. -/
def dumpsFields : List (String × Json) → String
  | [] => ""
  | [(k, v)] => dumpStr k ++ ":" ++ dumps v
  | (k, v) :: p :: rest => dumpStr k ++ ":" ++ dumps v ++ "," ++ dumpsFields (p :: rest)

end

/-- `json.dumps(x, sort_keys=True, separators=(',', ':'))`. -/
def dumpsCanonical (x : Json) : String := dumps (canon x)

/-- First-match association lookup, Python `dict[k]` / `dict.get(k)`. -/
def lookupF (k : String) : List (String × Json) → Option Json
  | [] => none
  | (k', v) :: rest => if k' = k then some v else lookupF k rest

/-- Python `d[k] = v`: overwrite in place, else append. -/
def setF (k : String) (v : Json) : List (String × Json) → List (String × Json)
  | [] => [(k, v)]
  | (k', v') :: rest => if k' = k then (k, v) :: rest else (k', v') :: setF k v rest

/-- Python `d.pop(k, None)`: drop the (unique) binding of `k`. -/
def removeF (k : String) : List (String × Json) → List (String × Json)
  | [] => []
  | (k', v') :: rest => if k' = k then rest else (k', v') :: removeF k rest

/-- The fields of an object value, if it is one. -/
def objFields : Json → Option (List (String × Json))
  | .obj fs => some fs
  | _ => none

/-- No string occurs twice. -/
def keysDistinct : List String → Bool
  | [] => true
  | k :: ks => (!ks.contains k) && keysDistinct ks

mutual

/-- Every object reachable in the value has pairwise-distinct keys —
automatically true of anything parsed from Python `dict`s. -/
def nodupKeys : Json → Bool
  | .null => true
  | .bool _ => true
  | .num _ => true
  | .str _ => true
  | .arr xs => nodupKeysList xs
  | .obj fs => keysDistinct (fs.map Prod.fst) && nodupKeysFields fs

/-- `nodupKeys` over array elements. -/
def nodupKeysList : List Json → Bool
  | [] => true
  | x :: xs => nodupKeys x && nodupKeysList xs

/-- `nodupKeys` over object values. -/
def nodupKeysFields : List (String × Json) → Bool
  | [] => true
  | (_, v) :: rest => nodupKeys v && nodupKeysFields rest

end

mutual

/-- Python `==` on parsed JSON values: structural equality with dict
comparison ignoring key order.  Two values related by `jeq` are "the same
logical content" in the sense of the spec. -/
def jeq : Json → Json → Bool
  | .null, .null => true
  | .bool a, .bool b => a == b
  | .num a, .num b => a == b
  | .str a, .str b => a == b
  | .arr xs, .arr ys => jeqList xs ys
  | .obj fs, .obj gs => fs.length == gs.length && jeqFields fs gs
  | _, _ => false

/-- Pointwise `jeq` on equal-length lists. -/
def jeqList : List Json → List Json → Bool
  | [], [] => true
  | x :: xs, y :: ys => jeq x y && jeqList xs ys
  | _, _ => false

/-- Every field of the first object matches, by key lookup, a `jeq` value in
the second. -/
def jeqFields : List (String × Json) → List (String × Json) → Bool
  | [], _ => true
  | (k, v) :: rest, gs =>
      (match lookupF k gs with
       | some w => jeq v w
       | none => false) && jeqFields rest gs

end

end Rtt

namespace Rtt

/-! ## Hashing as used by the WAL (tools/validation.py, tools/wal_operations.py) -/

/-- `validation.compute_secure_hash(data)` for sha256: double SHA-256,
`sha256(sha256(data).digest()).hexdigest()`. -/
def computeSecureHash (data : List Nat) : String := hexOfBytes (sha256 (sha256 data))

/-- `WALOperations._compute_entry_hash(entry)`: canonical JSON of the whole
entry dict, then `compute_secure_hash` of its UTF-8 bytes. -/
def computeEntryHash (e : Json) : String := computeSecureHash (strBytes (dumpsCanonical e))

/-- The chaining formula the specification states:
`sha256(prev_hex + sha256(canonical(frame))_hex).hexdigest()`, a single
SHA-256 over the previous root's hex concatenated with the frame's hex
digest.  (The repository's own `tests/unit/test_wal.py` reimplements this
formula as its local `merkle` helper.) -/
def specChainRoot (prevHex : String) (frame : Json) : String :=
  sha256Hex (strBytes (prevHex ++ sha256Hex (strBytes (dumpsCanonical frame))))

/-! ## WAL state and operations (tools/wal_operations.py) -/

/-- The exception classes that can escape a WAL operation. -/
inductive WalErr where
  | lock
  | corruption
  | other
deriving DecidableEq

/-- One `*.wal.json` file: its name and its parsed JSON content. -/
structure WalFile where
  name : String
  content : Json

/-- The WAL directory: entry files plus the `LATEST` pointer file
(`none` when the file does not exist). -/
structure WalState where
  files : List WalFile
  latest : Option String

/-- `WALOperations._read_latest`: the stripped `LATEST` content, or
`"GENESIS"` when the file is absent or empty. -/
def readLatest (st : WalState) : String :=
  match st.latest with
  | none => "GENESIS"
  | some s => if s = "" then "GENESIS" else s

/-- Python `d[k] = v` threaded through `entry["prev"] = ...` and
`entry["ts"] = entry.get("ts", now)`: the final frame dict of an append. -/
def finalFrame (st : WalState) (entry : List (String × Json)) (now : Int) :
    List (String × Json) :=
  let e1 := setF "prev" (Json.str (readLatest st)) entry
  let tsv := match lookupF "ts" e1 with
    | some v => v
    | none => Json.num now
  setF "ts" tsv e1

/-- `int(entry["ts"])` on the JSON values an entry can carry. -/
def tsInt : Json → Option Int
  | .num n => some n
  | .bool b => some (cond b 1 0)
  | _ => none

/-- Whether some entry file stores `root == h`
(`WALOperations._verify_chain_continuity`; files that are not objects or
lack a string root are skipped). -/
def hasRoot (files : List WalFile) (h : String) : Bool :=
  files.any (fun f =>
    match f.content with
    | .obj ds =>
        match lookupF "root" ds with
        | some (.str r) => r == h
        | _ => false
    | _ => false)

/-- Overwrite-or-create a file by name. -/
def writeFileL : List WalFile → String → Json → List WalFile
  | [], n, c => [⟨n, c⟩]
  | f :: rest, n, c => if f.name = n then ⟨n, c⟩ :: rest else f :: writeFileL rest n c

/-- `s[:n]`. -/
def strTake (s : String) (n : Nat) : String := String.mk (s.toList.take n)

/-- The body of `WALOperations.append_entry` once the lock is held: read
`LATEST`, set `prev` and `ts`, hash, check continuity, write the entry file,
atomically update `LATEST`. -/
def appendEntryCore (st : WalState) (entry : List (String × Json)) (now : Int) :
    Except WalErr (String × WalState) :=
  let prev := readLatest st
  let frame := finalFrame st entry now
  let h := computeEntryHash (Json.obj frame)
  if prev ≠ "GENESIS" ∧ hasRoot st.files prev = false then .error .corruption
  else
    match tsInt ((lookupF "ts" frame).getD Json.null) with
    | none => .error .other
    | some t =>
        let name := toString t ++ "-" ++ strTake h 12 ++ ".wal.json"
        let wal := Json.obj [("root", Json.str h), ("frame", Json.obj frame)]
        .ok (h, ⟨writeFileL st.files name wal, some h⟩)

/-- `WALOperations._acquire_lock` as a trace over lock availability: attempt
at decisecond `t`; on failure raise `WALLockError` once the elapsed time
exceeds the timeout, else sleep 0.1 s and retry.  The loop makes at most
`timeout + 2` attempts (the `fuel`), which is exactly the number the Python
loop can make before its elapsed-time check fires. -/
def lockLoop (avail : Nat → Bool) (timeout : Nat) : Nat → Nat → Option Nat
  | 0, _ => none
  | fuel + 1, t =>
      if avail t then some t
      else if t > timeout then none
      else lockLoop avail timeout fuel (t + 1)

/-- Lock acquisition from time 0 with a timeout in deciseconds. -/
def acquireLock (avail : Nat → Bool) (timeout : Nat) : Option Nat :=
  lockLoop avail timeout (timeout + 2) 0

/-- `WALOperations.append_entry` (the locking path, the only one the apply
stage uses): acquire the lock within the timeout or fail with `WALLockError`;
the returned state is the WAL directory afterwards. -/
def appendEntry (avail : Nat → Bool) (timeout : Nat) (st : WalState)
    (entry : List (String × Json)) (now : Int) : Except WalErr String × WalState :=
  match acquireLock avail timeout with
  | none => (.error .lock, st)
  | some _ =>
      match appendEntryCore st entry now with
      | .error e => (.error e, st)
      | .ok (h, st') => (.ok h, st')

/-- Filename order on entry files (`sorted(self.wal_dir.glob(...))`). -/
def fileLe (f g : WalFile) : Prop := strLeB f.name g.name = true

instance instDecFileLe : DecidableRel fileLe :=
  fun f g => inferInstanceAs (Decidable (strLeB f.name g.name = true))

/-- One iteration of the `verify_chain` loop on one entry file: check
`frame.prev` against the running hash, recompute the root, return the stored
root as the new running hash.  `KeyError`/non-dict accesses map to the
exception the Python code would raise (`WALCorruptionError` for missing keys,
an uncaught `TypeError` otherwise; a stored non-string `root` or `prev` can
never equal the computed string, which the code reports as corruption). -/
def checkFile (prevHash : String) (f : WalFile) : Except WalErr String :=
  match f.content with
  | .obj ds =>
      match lookupF "frame" ds with
      | none => .error .corruption
      | some frame =>
          match frame with
          | .obj fr =>
              match lookupF "prev" fr with
              | none => .error .corruption
              | some (.str p) =>
                  if p = prevHash then
                    let computed := computeEntryHash frame
                    match lookupF "root" ds with
                    | none => .error .corruption
                    | some (.str r) =>
                        if r = computed then .ok r else .error .corruption
                    | some _ => .error .corruption
                  else .error .corruption
              | some _ => .error .corruption
          | _ => .error .other
  | _ => .error .other

/-- Fold `checkFile` down the sorted file list, threading the running hash. -/
def verifyChainGo (prevHash : String) : List WalFile → Except WalErr String
  | [] => .ok prevHash
  | f :: rest =>
      match checkFile prevHash f with
      | .error e => .error e
      | .ok h => verifyChainGo h rest

/-- `WALOperations.verify_chain`: replay all entry files in filename order
from `GENESIS`, then compare `LATEST` against the final root. -/
def verifyChain (st : WalState) : Except WalErr Bool :=
  let files := List.insertionSort fileLe st.files
  match files with
  | [] => .ok true
  | _ =>
      match verifyChainGo "GENESIS" files with
      | .error e => .error e
      | .ok lastHash =>
          let latest := readLatest st
          if latest ≠ lastHash ∧ latest ≠ "GENESIS" then .error .corruption
          else .ok true

end Rtt

namespace Rtt

/-! ## Plan integrity and signature (tools/authentication.py) -/

/-- The exception classes of the verification / apply pipeline
(`ValidationError`, `AuthenticationError`, `SignatureError`, the WAL errors,
and any other uncaught exception). -/
inductive RttErr where
  | validationError
  | authenticationError
  | signatureError
  | walLock
  | walCorruption
  | other
deriving DecidableEq

/-- `plan.get("plan_id", "")` seen through the string comparison that
follows: `some s` when the comparison can succeed against a computed string
(`""` when the key is absent), `none` when the stored value is not a string
and the `!=` is therefore always true. -/
def storedPlanId (plan : List (String × Json)) : Option String :=
  match lookupF "plan_id" plan with
  | none => some ""
  | some (.str s) => some s
  | some _ => none

/-- The canonical plan bytes of the integrity check: the plan with
`plan_id` and `sign` removed, canonically serialized. -/
def planPayloadBytes (plan : List (String × Json)) : String :=
  dumpsCanonical (Json.obj (removeF "sign" (removeF "plan_id" plan)))

/-- The plan id `verify_plan_integrity` recomputes:
`"sha256-" + sha256(canonical_bytes).hexdigest()` (single SHA-256). -/
def computedPlanId (plan : List (String × Json)) : String :=
  "sha256-" ++ sha256Hex (strBytes (planPayloadBytes plan))

/-- `authentication.verify_plan_integrity`: raises `ValidationError` unless
the stored `plan_id` equals the recomputed hash. -/
def verifyPlanIntegrity (plan : List (String × Json)) : Except RttErr Bool :=
  if storedPlanId plan = some (computedPlanId plan) then .ok true
  else .error .validationError

/-- Python truthiness of a parsed JSON value (`if not signature_info`). -/
def jsonTruthy : Json → Bool
  | .null => false
  | .bool b => b
  | .num n => n != 0
  | .str s => s != ""
  | .arr xs => !xs.isEmpty
  | .obj fs => !fs.isEmpty

/-- Split a string at its first `:` (`key_content.split(':', 1)`). -/
def splitColon (s : String) : Option (String × String) :=
  match s.toList.findIdx? (fun c => c = ':') with
  | none => none
  | some i => some (String.mk (s.toList.take i), String.mk (s.toList.drop (i + 1)))

/-- The environment `verify_plan_signature` consults: the trusted key-id
allowlist (`Config.TRUSTED_KEY_IDS`), the `<key_id>.pub` files present in the
trusted-keys directory, and the Ed25519 primitive
`ed25519_helper.verify(pub_b64, data, sig)`, which the control flow treats as
an oracle. -/
structure AuthEnv where
  trusted : List String
  keyFiles : List (String × String)
  verifySig : String → String → Json → Bool

/-- Association lookup for key files. -/
def lookupKeyFile (k : String) : List (String × String) → Option String
  | [] => none
  | (k', v) :: rest => if k' = k then some v else lookupKeyFile k rest

/-- The string algorithm tag of a `sign` block, when it is one
(`sig.get("alg", "")` seen through the string comparison that follows). -/
def sigAlg (sigInfo : List (String × Json)) : Option String :=
  match (lookupF "alg" sigInfo).getD (Json.str "") with
  | .str a => some a
  | _ => none

/-- The string key id of a `sign` block, when it is one. -/
def sigKeyId (sigInfo : List (String × Json)) : Option String :=
  match (lookupF "key_id" sigInfo).getD (Json.str "") with
  | .str k => some k
  | _ => none

/-- Parse a stored public-key file: an optional `type:` tag that must be
`ed25519` (a mismatch inside the reading `try` block is swallowed and
re-raised as `AuthenticationError`), else the whole content is the key. -/
def pubOf (content : String) : Option String :=
  match splitColon content with
  | some (t, rest) => if t = "ed25519" then some rest else none
  | none => some content

/-- `authentication.verify_plan_signature(plan_data, signature_info)`:
algorithm must be `ed25519` (else `SignatureError`); the key id must be a
non-empty trusted string with a present `.pub` file (else
`AuthenticationError`; a key file whose `type:` tag mismatches also surfaces
as `AuthenticationError` because the reading `try` block swallows it and
re-raises); finally the Ed25519 oracle checks the signature over the
canonical plan bytes, failure raising `SignatureError`. -/
def verifyPlanSignature (env : AuthEnv) (planData : List (String × Json))
    (sigInfo : List (String × Json)) : Except RttErr Bool :=
  let algJ := (lookupF "alg" sigInfo).getD (Json.str "")
  match algJ with
  | .str alg =>
      if alg = "ed25519" then
        match (lookupF "key_id" sigInfo).getD (Json.str "") with
        | .str keyId =>
            if keyId = "" ∨ keyId ∉ env.trusted then .error .authenticationError
            else
              match lookupKeyFile keyId env.keyFiles with
              | none => .error .authenticationError
              | some content =>
                  match pubOf content with
                  | none => .error .authenticationError
                  | some pub =>
                      let canonicalData := dumpsCanonical (Json.obj planData)
                      let sigVal := (lookupF "sig" sigInfo).getD (Json.str "")
                      if env.verifySig pub canonicalData sigVal then .ok true
                      else .error .signatureError
        | _ => .error .authenticationError
  else .error .signatureError
  | _ => .error .signatureError

/-- `authentication.verify_plan_complete`: hash integrity first, then the
signature layer when required or when a `sign` block is present.  A falsy
`sign` value passes when signatures are not required and raises
`SignatureError` when they are; a truthy non-dict `sign` raises an uncaught
`AttributeError` (modelled `.other`). -/
def verifyPlanComplete (env : AuthEnv) (requireSig : Bool)
    (plan : List (String × Json)) : Except RttErr Bool :=
  match verifyPlanIntegrity plan with
  | .error e => .error e
  | .ok _ =>
      if requireSig || (lookupF "sign" plan).isSome then
        match lookupF "sign" plan with
        | none => if requireSig then .error .signatureError else .ok true
        | some sv =>
            if jsonTruthy sv then
              match sv with
              | .obj sigInfo => verifyPlanSignature env (removeF "sign" plan) sigInfo
              | _ => .error .other
            else if requireSig then .error .signatureError
            else .ok true
      else .ok true

/-! ## The apply stage (auto/50-apply_plan.py) -/

/-- Map a WAL exception into the apply stage's error classification. -/
def ofWalErr : WalErr → RttErr
  | .lock => .walLock
  | .corruption => .walCorruption
  | .other => .other

/-- `apply_plan` after the plan file is loaded: verify (integrity plus
signature), build the WAL frame, append under the lock, then best-effort
update of the desired-state cache.  Returns the outcome, the WAL state and
the cache state; `cacheOk = false` means the cache write raised, which the
code catches and only logs. -/
def applyPlan (env : AuthEnv) (requireSig : Bool) (avail : Nat → Bool)
    (timeout : Nat) (st : WalState) (cache : Option Json) (cacheOk : Bool)
    (plan : List (String × Json)) (now : Int) :
    Except RttErr String × WalState × Option Json :=
  match verifyPlanComplete env requireSig plan with
  | .error e => (.error e, st, cache)
  | .ok _ =>
      let walEntry :=
        [("ts", Json.num now),
         ("plan_id", (lookupF "plan_id" plan).getD (Json.str "unknown")),
         ("apply", (lookupF "routes_add" plan).getD (Json.arr [])),
         ("remove", (lookupF "routes_del" plan).getD (Json.arr []))]
      match appendEntry avail timeout st walEntry now with
      | (.error we, st') => (.error (ofWalErr we), st', cache)
      | (.ok h, st') =>
          let cache' := if cacheOk then some (Json.obj plan) else cache
          (.ok h, st', cache')

/-- The `except` ladder of `main()` in 50-apply_plan.py: 0 on success, 1 on
`ValidationError`, 2 on `SignatureError`, 99 on anything else. -/
def applyExitCode : Except RttErr String → Nat
  | .ok _ => 0
  | .error .validationError => 1
  | .error .signatureError => 2
  | .error _ => 99

/-- How `main()` obtained its plan argument: given on argv, read from
`latest.plan.json` (which may fail), or nothing. -/
inductive PlanArg where
  | given
  | fromLatestFile (read : Except Unit String)
  | absent

/-- The exit code of one invocation of the apply CLI: usage errors exit 2
before any plan processing; otherwise the apply outcome is classified by the
`except` ladder. -/
def mainExit (arg : PlanArg) (applyResult : Except RttErr String) : Nat :=
  match arg with
  | .absent => 2
  | .fromLatestFile (.error _) => 2
  | .fromLatestFile (.ok _) => applyExitCode applyResult
  | .given => applyExitCode applyResult

/-- Whether the invocation is a usage error (no usable plan argument). -/
def isUsageError (arg : PlanArg) : Bool :=
  match arg with
  | .absent => true
  | .fromLatestFile (.error _) => true
  | _ => false

/-! ## Scanner index write and atomic-rename discipline
(auto/10-scan_symbols.py, tools/wal_operations.py, tools/cas_ingest.py,
auto/50-apply_plan.py) -/

/-- A filesystem mutation, as far as crash-atomicity is concerned. -/
inductive FsOp where
  | write (path : String) (data : String)
  | rename (src : String) (dst : String)
deriving DecidableEq

/-- The symbol index path `rtt_elite_addon/index/symbols.index.json`. -/
def symbolIndexPath : String := "rtt_elite_addon/index/symbols.index.json"

/-- The filesystem trace of the scanner's index write:
`INDEX.write_text(json.dumps(index_data, indent=2))` — one direct write. -/
def scanIndexWrite (data : String) : List FsOp :=
  [FsOp.write symbolIndexPath data]

/-- The filesystem trace of `WALOperations._write_latest`: write the temp
file, then atomically rename it over `LATEST`. -/
def writeLatestOps (h : String) : List FsOp :=
  [FsOp.write "wal/LATEST.tmp" h, FsOp.rename "wal/LATEST.tmp" "wal/LATEST"]

/-- The filesystem trace of the desired-state cache update in `apply_plan`. -/
def writeCacheOps (data : String) : List FsOp :=
  [FsOp.write "cache/desired.graph.tmp" data,
   FsOp.rename "cache/desired.graph.tmp" "cache/desired.graph.json"]

/-- Whether a trace is a write-temp-then-atomic-rename update of `target`:
exactly one write to a distinct temp path followed by its rename onto the
target. -/
def atomicTempRename (target : String) (ops : List FsOp) : Bool :=
  match ops with
  | [FsOp.write p _, FsOp.rename src dst] =>
      p == src && dst == target && p != target
  | _ => false

/-! ## CAS ingestion (tools/cas_ingest.py) -/

/-- `cas_ingest.normalize(obj)`: canonical JSON bytes (as an ASCII string). -/
def normalize (x : Json) : String := dumpsCanonical x

/-- The CAS content key `hex(sha256(normalize(value)))`. -/
def casKey (x : Json) : String := sha256Hex (strBytes (normalize x))

/-- Overwrite-or-create in the CAS directory, the filesystem `write_bytes`. -/
def setStore : List (String × String) → String → String → List (String × String)
  | [], p, d => [(p, d)]
  | (p', d') :: rest, p, d =>
      if p' = p then (p, d) :: rest else (p', d') :: setStore rest p d

/-- The CAS write of `ingest_agent`: the normalized bytes land at
`<sha256_hex>.json`; the returned key pairs with the blob path. -/
def ingestCas (store : List (String × String)) (x : Json) :
    String × List (String × String) :=
  (casKey x, setStore store (casKey x ++ ".json") (normalize x))

end Rtt

namespace Rtt

/-! ## Policy engine (tools/policy_match.py via tests/unit/test_policy.py)

Modelled from the spec: the module `tools/policy_match.py` that defines
`allowed` is not present in the source tree (only its unit tests and callers
are).  The spec states: `allowed(policy, from, to)` iterates the policy's
`allow` rule list; a rule matches if `fnmatch(from, rule.from)` and
`fnmatch(to, rule.to)` (glob `*` matches any substring including path
separators, `?` matches one character, bracket ranges supported); any
matching rule grants access, no matching rule denies; missing `from`/`to`
default to `*`; an empty rule list denies everything. -/

/-- Scan to the closing `]` of a bracket class, returning the class body and
the remainder of the pattern. -/
def splitAtRbracket : List Char → Option (List Char × List Char)
  | [] => none
  | c :: rest =>
      if c = ']' then some ([], rest)
      else
        match splitAtRbracket rest with
        | some (b, r) => some (c :: b, r)
        | none => none

/-- Parse a bracket class right after `[`: optional leading `!` negation, a
`]` in first position is literal, and an unterminated class makes the `[`
literal (`none`). -/
def parseBracket (p : List Char) : Option (Bool × List Char × List Char) :=
  let pr := match p with
    | c :: rest => if c = '!' then (true, rest) else (false, p)
    | [] => (false, p)
  match pr.2 with
  | c :: rest =>
      if c = ']' then
        match splitAtRbracket rest with
        | some (body, r) => some (pr.1, ']' :: body, r)
        | none => none
      else
        match splitAtRbracket pr.2 with
        | some (body, r) => some (pr.1, body, r)
        | none => none
  | [] => none

/-- Whether a character is in the bracket-class body (`a-b` ranges, others
literal). -/
def bracketHas : List Char → Char → Bool
  | a :: d :: b :: rest, c =>
      if d = '-' then (a ≤ c && c ≤ b) || bracketHas rest c
      else a == c || bracketHas (d :: b :: rest) c
  | a :: rest, c => a == c || bracketHas rest c
  | [], _ => false

/-- The glob-matching recursion, bounded by a fuel that strictly exceeds the
combined length of pattern and subject: every recursive call shrinks that
combined length, so the fuel in `globMatch` below is never exhausted and the
function computes full-string glob matching where `*` matches any substring
(path separators included), `?` any one character, and bracket classes with
ranges and `!` negation are supported (POSIX `fnmatch.fnmatch`). -/
def globMatchF : Nat → List Char → List Char → Bool
  | 0, _, _ => false
  | _ + 1, [], [] => true
  | _ + 1, [], _ :: _ => false
  | fuel + 1, a :: p, s =>
      if a = '*' then
        globMatchF fuel p s ||
          (match s with
           | [] => false
           | _ :: s' => globMatchF fuel (a :: p) s')
      else if a = '?' then
        match s with
        | [] => false
        | _ :: s' => globMatchF fuel p s'
      else if a = '[' then
        match parseBracket p with
        | some (neg, body, rest) =>
            match s with
            | [] => false
            | c :: s' => (bracketHas body c != neg) && globMatchF fuel rest s'
        | none =>
            match s with
            | [] => false
            | c :: s' => a == c && globMatchF fuel p s'
      else
        match s with
        | [] => false
        | c :: s' => a == c && globMatchF fuel p s'

/-- Glob matching with adequate fuel. -/
def globMatch (p s : List Char) : Bool :=
  globMatchF (p.length + s.length + 1) p s

/-- Glob matching on strings. -/
def fnmatchB (s pat : String) : Bool := globMatch pat.toList s.toList

/-- Modelled from the spec: a rule's pattern for a slot, `rule.get(slot, "*")`
defaulting to `*` when missing (non-string values also fall back to the
default). -/
def rulePat (r : List (String × Json)) (slot : String) : String :=
  match lookupF slot r with
  | some (.str s) => s
  | _ => "*"

/-- Modelled from the spec: whether one allow rule matches the ordered pair
of symbol addresses. -/
def ruleMatches (src dst : String) : Json → Bool
  | .obj r => fnmatchB src (rulePat r "from") && fnmatchB dst (rulePat r "to")
  | _ => false

/-- Modelled from the spec: the policy's `allow` rule list (`[]` when absent
or not a list). -/
def allowRules : Json → List Json
  | .obj ps =>
      match lookupF "allow" ps with
      | some (.arr rules) => rules
      | _ => []
  | _ => []

/-- Modelled from the spec: `allowed(policy, from, to)` — some rule in the
`allow` list matches both addresses; no rules means deny. -/
def allowed (policy : Json) (src dst : String) : Bool :=
  (allowRules policy).any (ruleMatches src dst)

end Rtt

namespace Rtt

/-! ## Concrete example values used by the claim theorems -/

/-- An example frame dict as `apply_plan` builds it. -/
def exEntry1 : List (String × Json) :=
  [("ts", Json.num 1000), ("plan_id", Json.str "p-1"),
   ("apply", Json.arr []), ("remove", Json.arr [])]

/-- The empty WAL directory. -/
def exState0 : WalState := ⟨[], none⟩

/-- A lock that is always free. -/
def freeLock : Nat → Bool := fun _ => true

/-- The frame of the first example append. -/
def exFrame1 : List (String × Json) := finalFrame exState0 exEntry1 1000

/-- The root the code stores for the first example append. -/
def exRoot1 : String := computeEntryHash (Json.obj exFrame1)

/-- The WAL directory after one example append. -/
def exState1 : WalState := (appendEntry freeLock 300 exState0 exEntry1 1000).2

/-- `exState1` with the `LATEST` pointer file deleted. -/
def exState1NoLatest : WalState := ⟨exState1.files, none⟩

/-- The payload of the example plan (everything but `plan_id` and `sign`). -/
def exPayload : List (String × Json) := [("routes_add", Json.arr [])]

/-- The correct plan id of `exPayload`. -/
def exPlanId : String :=
  "sha256-" ++ sha256Hex (strBytes (dumpsCanonical (Json.obj exPayload)))

/-- A plan whose hash is correct but whose `sign` block names a non-Ed25519
algorithm. -/
def exPlanBadAlg : List (String × Json) :=
  [("plan_id", Json.str exPlanId), ("routes_add", Json.arr []),
   ("sign", Json.obj [("alg", Json.str "rsa")])]

/-- An unsigned plan with a correct hash. -/
def exPlanUnsigned : List (String × Json) :=
  [("plan_id", Json.str exPlanId), ("routes_add", Json.arr [])]

/-- A plan whose stored id cannot match its recomputed hash. -/
def exPlanTampered : List (String × Json) :=
  [("plan_id", Json.str "sha256-wrong"), ("routes_add", Json.arr [])]

/-- An authentication environment with one trusted key id and no key files,
whose Ed25519 oracle rejects everything. -/
def exEnv : AuthEnv := ⟨["dev"], [], fun _ _ _ => false⟩

/-- A sample object whose keys (at both levels) are out of order. -/
def exJsonA : Json :=
  Json.obj [("b", Json.num 1), ("a", Json.obj [("y", Json.num 2), ("x", Json.num 3)])]

/-- The same logical content as `exJsonA` with reordered keys. -/
def exJsonB : Json :=
  Json.obj [("a", Json.obj [("x", Json.num 3), ("y", Json.num 2)]), ("b", Json.num 1)]

/-- The WAL frame `apply_plan` builds for the unsigned example plan. -/
def exWalEntry : List (String × Json) :=
  [("ts", Json.num 1000), ("plan_id", Json.str exPlanId),
   ("apply", Json.arr []), ("remove", Json.arr [])]

/-- The root the example apply run stores. -/
def exApplyRoot : String := computeEntryHash (Json.obj (finalFrame exState0 exWalEntry 1000))

/-- The Prop-level well-formedness of one chain link starting at `prevHash`,
continuing with root `r`: what `verify_chain` accepts for one file. -/
def chainValidFrom (prevHash final : String) : List WalFile → Prop
  | [] => final = prevHash
  | f :: rest => ∃ ds fr r,
      f.content = Json.obj ds ∧
      lookupF "frame" ds = some (Json.obj fr) ∧
      lookupF "prev" fr = some (Json.str prevHash) ∧
      lookupF "root" ds = some (Json.str r) ∧
      r = computeEntryHash (Json.obj fr) ∧
      chainValidFrom r final rest

end Rtt

namespace Rtt

/-! ## Order lemmas for key sorting -/

/-- Strings with equal character lists are equal. -/
theorem strEqOfToList {a b : String} (h : a.toList = b.toList) : a = b := by
  cases a with
  | mk da =>
    cases b with
    | mk db =>
      have hd : da = db := by simpa [String.toList] using h
      rw [hd]

theorem charListLt_irrefl : ∀ x : List Char, charListLt x x = false := by
  intro x
  induction x with
  | nil => simp [charListLt]
  | cons a as ih => simp [charListLt, ih]

theorem charListLt_trans :
    ∀ x y z : List Char, charListLt x y = true → charListLt y z = true →
      charListLt x z = true := by
  intro x
  induction x with
  | nil =>
    intro y z hxy hyz
    cases y with
    | nil => simp [charListLt] at hxy
    | cons b bs =>
      cases z with
      | nil => simp [charListLt] at hyz
      | cons c cs => simp [charListLt]
  | cons a as ih =>
    intro y z hxy hyz
    cases y with
    | nil => simp [charListLt] at hxy
    | cons b bs =>
      cases z with
      | nil => simp [charListLt] at hyz
      | cons c cs =>
        simp only [charListLt] at hxy hyz ⊢
        by_cases hab : a < b
        · by_cases hbc : b < c
          · simp [lt_trans hab hbc]
          · by_cases hbc' : b = c
            · subst hbc'
              simp [hab]
            · simp [hbc, hbc'] at hyz
        · by_cases hab' : a = b
          · subst hab'
            simp only [if_neg hab, if_pos rfl] at hxy
            by_cases hac : a < c
            · simp [hac]
            · by_cases hac' : a = c
              · subst hac'
                simp only [if_neg hac, if_pos rfl] at hyz ⊢
                exact ih bs cs hxy hyz
              · simp [hac, hac'] at hyz
          · simp [hab, hab'] at hxy

theorem charListLt_connex :
    ∀ x y : List Char, charListLt x y = false → charListLt y x = false → x = y := by
  intro x
  induction x with
  | nil =>
    intro y hxy _
    cases y with
    | nil => rfl
    | cons b bs => simp [charListLt] at hxy
  | cons a as ih =>
    intro y hxy hyx
    cases y with
    | nil => simp [charListLt] at hyx
    | cons b bs =>
      simp only [charListLt] at hxy hyx
      by_cases hab : a < b
      · simp [hab] at hxy
      · by_cases hba : b < a
        · simp [hba] at hyx
        · have hab' : a = b := le_antisymm (not_lt.mp hba) (not_lt.mp hab)
          subst hab'
          simp only [if_neg hab, if_pos rfl] at hxy hyx
          rw [ih bs hxy hyx]

theorem charListLt_asymm {x y : List Char}
    (h1 : charListLt x y = true) (h2 : charListLt y x = true) : False := by
  have h3 := charListLt_trans x y x h1 h2
  rw [charListLt_irrefl] at h3
  exact Bool.false_ne_true h3

/-- Totality of the field comparison. -/
theorem fieldLe_total : ∀ p q : String × Json, fieldLe p q ∨ fieldLe q p := by
  intro p q
  by_cases h1 : strLtB p.1 q.1 = true
  · exact Or.inl (Bool.or_eq_true_iff.mpr (Or.inl h1))
  · by_cases h2 : strLtB q.1 p.1 = true
    · exact Or.inr (Bool.or_eq_true_iff.mpr (Or.inl h2))
    · have he : p.1 = q.1 :=
        strEqOfToList (charListLt_connex p.1.toList q.1.toList
          (Bool.of_not_eq_true h1) (Bool.of_not_eq_true h2))
      exact Or.inl (Bool.or_eq_true_iff.mpr (Or.inr (beq_iff_eq.mpr he)))

/-- Transitivity of the field comparison. -/
theorem fieldLe_trans : ∀ p q r : String × Json, fieldLe p q → fieldLe q r → fieldLe p r := by
  intro p q r hpq hqr
  rcases Bool.or_eq_true_iff.mp hpq with h1 | h1
  · rcases Bool.or_eq_true_iff.mp hqr with h2 | h2
    · exact Bool.or_eq_true_iff.mpr (Or.inl (charListLt_trans _ _ _ h1 h2))
    · have he : q.1 = r.1 := eq_of_beq h2
      exact Bool.or_eq_true_iff.mpr (Or.inl (he ▸ h1))
  · have he : p.1 = q.1 := eq_of_beq h1
    have : fieldLe q r := hqr
    unfold fieldLe strLeB strLtB at this ⊢
    rw [he]
    exact this

/-- A non-strict key comparison between distinct keys is strict. -/
theorem fieldLt_of_fieldLe_ne {p q : String × Json}
    (h : fieldLe p q) (hne : p.1 ≠ q.1) : fieldLt p q := by
  rcases Bool.or_eq_true_iff.mp h with h1 | h1
  · exact h1
  · exact absurd (eq_of_beq h1) hne

/-- Strict key comparisons are asymmetric (hence vacuously antisymmetric). -/
theorem fieldLt_asymm {p q : String × Json}
    (h1 : fieldLt p q) (h2 : fieldLt q p) : False :=
  charListLt_asymm h1 h2

instance instTotalFieldLe : IsTotal (String × Json) fieldLe := ⟨fieldLe_total⟩

instance instTransFieldLe : IsTrans (String × Json) fieldLe := ⟨fieldLe_trans⟩

instance instAntisymmFieldLt : IsAntisymm (String × Json) fieldLt :=
  ⟨fun _ _ h1 h2 => absurd h2 (fun h => fieldLt_asymm h1 h)⟩

end Rtt

namespace Rtt

/-! ## Canonicalization lemmas (claim C6 infrastructure) -/

theorem json_sizeOf_pos (a : Json) : 0 < sizeOf a := by
  cases a <;> simp_arith

theorem lookupF_mem {k : String} {w : Json} :
    ∀ {l : List (String × Json)}, lookupF k l = some w → (k, w) ∈ l := by
  intro l
  induction l with
  | nil => intro h; simp [lookupF] at h
  | cons p rest ih =>
    intro h
    cases p with
    | mk k' v =>
      by_cases hk : k' = k
      · subst hk
        have h' : v = w := by simpa [lookupF] using h
        subst h'
        exact List.mem_cons_self _ _
      · simp only [lookupF, if_neg hk] at h
        exact List.mem_cons_of_mem _ (ih h)

theorem jeqFields_forall :
    ∀ fs gs : List (String × Json), jeqFields fs gs = true →
      ∀ p ∈ fs, ∃ w, lookupF p.1 gs = some w ∧ jeq p.2 w = true := by
  intro fs
  induction fs with
  | nil => intro gs _ p hp; simp at hp
  | cons q rest ih =>
    intro gs h p hp
    cases q with
    | mk k v =>
      simp only [jeqFields] at h
      rcases Bool.and_eq_true_iff.mp h with ⟨h1, h2⟩
      rcases List.mem_cons.mp hp with hp | hp
      · subst hp
        cases hl : lookupF k gs with
        | none => rw [hl] at h1; simp at h1
        | some w =>
          rw [hl] at h1
          exact ⟨w, rfl, h1⟩
      · exact ih gs h2 p hp

theorem canonFields_eq_map :
    ∀ fs : List (String × Json), canonFields fs = fs.map (fun p => (p.1, canon p.2)) := by
  intro fs
  induction fs with
  | nil => rfl
  | cons p rest ih =>
    cases p with
    | mk k v => simp [canonFields, ih]

theorem nodupKeysFields_mem :
    ∀ fs : List (String × Json), nodupKeysFields fs = true →
      ∀ p ∈ fs, nodupKeys p.2 = true := by
  intro fs
  induction fs with
  | nil => intro _ p hp; simp at hp
  | cons q rest ih =>
    intro h p hp
    cases q with
    | mk k v =>
      rw [show nodupKeysFields ((k, v) :: rest) = (nodupKeys v && nodupKeysFields rest)
        from rfl] at h
      rcases Bool.and_eq_true_iff.mp h with ⟨h1, h2⟩
      rcases List.mem_cons.mp hp with hp | hp
      · subst hp; exact h1
      · exact ih h2 p hp

theorem keysDistinct_nodup : ∀ l : List String, keysDistinct l = true → l.Nodup := by
  intro l
  induction l with
  | nil => intro _; exact List.nodup_nil
  | cons k ks ih =>
    intro h
    rw [show keysDistinct (k :: ks) = (!ks.contains k && keysDistinct ks) from rfl] at h
    rcases Bool.and_eq_true_iff.mp h with ⟨h1, h2⟩
    refine List.nodup_cons.mpr ⟨?_, ih h2⟩
    intro hm
    rw [show ks.contains k = ks.elem k from rfl, List.elem_iff.mpr hm] at h1
    exact absurd h1 (by simp)

/-- A `fieldLe`-sorted list with pairwise-distinct keys is `fieldLt`-sorted. -/
theorem sorted_lt_of_sorted_le {l : List (String × Json)}
    (hs : l.Sorted fieldLe) (hn : (l.map Prod.fst).Nodup) : l.Sorted fieldLt := by
  have hne : l.Pairwise (fun p q : String × Json => p.1 ≠ q.1) := List.pairwise_map.mp hn
  exact (hs.and hne).imp (fun h => fieldLt_of_fieldLe_ne h.1 h.2)

end Rtt

namespace Rtt

theorem list_sizeOf_pos {α : Type} [SizeOf α] (l : List α) : 0 < sizeOf l := by
  cases l <;> simp_arith

/-- Fuel-indexed induction for canonicalization: values that Python `==`
identifies (equal up to object key order, `jeq`) canonicalize identically,
together with the list- and field-level statements the induction needs. -/
theorem canonAux : ∀ n : Nat,
    (∀ a b : Json, sizeOf a ≤ n → nodupKeys a = true → nodupKeys b = true →
      jeq a b = true → canon a = canon b) ∧
    (∀ xs ys : List Json, sizeOf xs ≤ n → nodupKeysList xs = true →
      nodupKeysList ys = true → jeqList xs ys = true → canonList xs = canonList ys) ∧
    (∀ fs gs : List (String × Json), sizeOf fs ≤ n →
      keysDistinct (fs.map Prod.fst) = true → keysDistinct (gs.map Prod.fst) = true →
      nodupKeysFields fs = true → nodupKeysFields gs = true →
      fs.length = gs.length → jeqFields fs gs = true →
      List.insertionSort fieldLe (canonFields fs) =
        List.insertionSort fieldLe (canonFields gs)) := by
  intro n
  induction n with
  | zero =>
    refine ⟨?_, ?_, ?_⟩
    · intro a _ hsz _ _ _
      have := json_sizeOf_pos a
      omega
    · intro xs _ hsz _ _ _
      have := list_sizeOf_pos xs
      omega
    · intro fs _ hsz _ _ _ _ _ _
      have := list_sizeOf_pos fs
      omega
  | succ n ih =>
    obtain ⟨ihJ, ihL, ihF⟩ := ih
    refine ⟨?_, ?_, ?_⟩
    · intro a b hsz ha hb hj
      rw [jeq.eq_def] at hj
      cases a with
      | null =>
        cases b with
        | null => rfl
        | bool y => simp at hj
        | num m => simp at hj
        | str t => simp at hj
        | arr ys => simp at hj
        | obj gs => simp at hj
      | bool x =>
        cases b with
        | bool y =>
          have hxy : x = y := by simpa using hj
          subst hxy
          rfl
        | null => simp at hj
        | num m => simp at hj
        | str t => simp at hj
        | arr ys => simp at hj
        | obj gs => simp at hj
      | num x =>
        cases b with
        | num y =>
          have hxy : x = y := by simpa using hj
          subst hxy
          rfl
        | null => simp at hj
        | bool y => simp at hj
        | str t => simp at hj
        | arr ys => simp at hj
        | obj gs => simp at hj
      | str x =>
        cases b with
        | str y =>
          have hxy : x = y := by simpa using hj
          subst hxy
          rfl
        | null => simp at hj
        | bool y => simp at hj
        | num m => simp at hj
        | arr ys => simp at hj
        | obj gs => simp at hj
      | arr xs =>
        cases b with
        | arr ys =>
          have hx : nodupKeysList xs = true := by simpa [nodupKeys] using ha
          have hy : nodupKeysList ys = true := by simpa [nodupKeys] using hb
          have hj' : jeqList xs ys = true := by simpa using hj
          have hsx : sizeOf xs ≤ n := by
            have h1 : sizeOf (Json.arr xs) = 1 + sizeOf xs := by simp
            omega
          simp only [canon]
          rw [ihL xs ys hsx hx hy hj']
        | null => simp at hj
        | bool y => simp at hj
        | num m => simp at hj
        | str t => simp at hj
        | obj gs => simp at hj
      | obj fs =>
        cases b with
        | obj gs =>
          have ha' : keysDistinct (fs.map Prod.fst) = true ∧ nodupKeysFields fs = true := by
            simpa [nodupKeys] using ha
          have hb' : keysDistinct (gs.map Prod.fst) = true ∧ nodupKeysFields gs = true := by
            simpa [nodupKeys] using hb
          have hj' : fs.length = gs.length ∧ jeqFields fs gs = true := by
            simpa using hj
          have hsf : sizeOf fs ≤ n := by
            have h1 : sizeOf (Json.obj fs) = 1 + sizeOf fs := by simp
            omega
          simp only [canon]
          rw [ihF fs gs hsf ha'.1 hb'.1 ha'.2 hb'.2 hj'.1 hj'.2]
        | null => simp at hj
        | bool y => simp at hj
        | num m => simp at hj
        | str t => simp at hj
        | arr ys => simp at hj
    · intro xs ys hsz hx hy hj
      cases xs with
      | nil =>
        cases ys with
        | nil => rfl
        | cons y ys' =>
          rw [jeqList.eq_def] at hj
          simp at hj
      | cons x xs' =>
        cases ys with
        | nil =>
          rw [jeqList.eq_def] at hj
          simp at hj
        | cons y ys' =>
          have hj' : jeq x y = true ∧ jeqList xs' ys' = true := by
            have := hj
            rw [jeqList.eq_def] at this
            simpa using this
          have hx' : nodupKeys x = true ∧ nodupKeysList xs' = true := by
            simpa [nodupKeysList] using hx
          have hy' : nodupKeys y = true ∧ nodupKeysList ys' = true := by
            simpa [nodupKeysList] using hy
          have hszc : sizeOf (x :: xs') = 1 + sizeOf x + sizeOf xs' := by simp
          have hsx : sizeOf x ≤ n := by omega
          have hsxs : sizeOf xs' ≤ n := by
            have := json_sizeOf_pos x
            omega
          simp only [canonList]
          rw [ihJ x y hsx hx'.1 hy'.1 hj'.1, ihL xs' ys' hsxs hx'.2 hy'.2 hj'.2]
    · intro fs gs hsz hkf hkg hnf hng hlen hj
      have hall := jeqFields_forall fs gs hj
      have hsub : canonFields fs ⊆ canonFields gs := by
        intro q hq
        rw [canonFields_eq_map] at hq
        rcases List.mem_map.mp hq with ⟨p, hp, rfl⟩
        rcases hall p hp with ⟨w, hw, hjw⟩
        have hmw : (p.1, w) ∈ gs := lookupF_mem hw
        have hszp : sizeOf p.2 ≤ n := by
          have h1 : sizeOf p < sizeOf fs := List.sizeOf_lt_of_mem hp
          have h2 : sizeOf p.2 < sizeOf p := by
            cases p with
            | mk u v => simp_arith
          omega
        have hc : canon p.2 = canon w :=
          ihJ p.2 w hszp (nodupKeysFields_mem fs hnf p hp)
            (nodupKeysFields_mem gs hng (p.1, w) hmw) hjw
        rw [canonFields_eq_map]
        exact List.mem_map.mpr ⟨(p.1, w), hmw, by simp [hc]⟩
      have hkeysF : (canonFields fs).map Prod.fst = fs.map Prod.fst := by
        rw [canonFields_eq_map, List.map_map]
        rfl
      have hkeysG : (canonFields gs).map Prod.fst = gs.map Prod.fst := by
        rw [canonFields_eq_map, List.map_map]
        rfl
      have hndF : (canonFields fs).Nodup :=
        List.Nodup.of_map Prod.fst (by rw [hkeysF]; exact keysDistinct_nodup _ hkf)
      have hlenF : (canonFields fs).length = (canonFields gs).length := by
        rw [canonFields_eq_map, canonFields_eq_map, List.length_map, List.length_map, hlen]
      have hperm : (canonFields fs).Perm (canonFields gs) :=
        (List.subperm_of_subset hndF hsub).perm_of_length_le (le_of_eq hlenF.symm)
      have hpermS : (List.insertionSort fieldLe (canonFields fs)).Perm
          (List.insertionSort fieldLe (canonFields gs)) :=
        ((List.perm_insertionSort _ _).trans hperm).trans
          (List.perm_insertionSort _ _).symm
      have hsF : (List.insertionSort fieldLe (canonFields fs)).Sorted fieldLt := by
        apply sorted_lt_of_sorted_le (List.sorted_insertionSort _ _)
        have hp : ((List.insertionSort fieldLe (canonFields fs)).map Prod.fst).Perm
            ((canonFields fs).map Prod.fst) := (List.perm_insertionSort _ _).map _
        rw [hp.nodup_iff, hkeysF]
        exact keysDistinct_nodup _ hkf
      have hsG : (List.insertionSort fieldLe (canonFields gs)).Sorted fieldLt := by
        apply sorted_lt_of_sorted_le (List.sorted_insertionSort _ _)
        have hp : ((List.insertionSort fieldLe (canonFields gs)).map Prod.fst).Perm
            ((canonFields gs).map Prod.fst) := (List.perm_insertionSort _ _).map _
        rw [hp.nodup_iff, hkeysG]
        exact keysDistinct_nodup _ hkg
      exact List.eq_of_perm_of_sorted hpermS hsF hsG

/-- Values Python `==` identifies canonicalize identically. -/
theorem canon_eq_of_jeq {a b : Json} (ha : nodupKeys a = true)
    (hb : nodupKeys b = true) (hj : jeq a b = true) : canon a = canon b :=
  (canonAux (sizeOf a)).1 a b le_rfl ha hb hj

/-- The CAS write is idempotent at the store level. -/
theorem setStore_idem : ∀ (s : List (String × String)) (p d : String),
    setStore (setStore s p d) p d = setStore s p d := by
  intro s
  induction s with
  | nil => intro p d; simp [setStore]
  | cons q rest ih =>
    intro p d
    cases q with
    | mk p' d' =>
      by_cases hp : p' = p
      · subst hp
        simp [setStore]
      · simp only [setStore, if_neg hp]
        rw [ih]

end Rtt

namespace Rtt

/-! ## WAL lock and chain lemmas -/

theorem lockLoop_some {avail : Nat → Bool} {timeout : Nat} :
    ∀ {fuel t u : Nat}, lockLoop avail timeout fuel t = some u →
      avail u = true ∧ t ≤ u := by
  intro fuel
  induction fuel with
  | zero => intro t u h; simp [lockLoop] at h
  | succ fuel ih =>
    intro t u h
    rw [lockLoop.eq_def] at h
    by_cases ha : avail t = true
    · simp only [ha, if_true] at h
      cases h
      exact ⟨ha, le_rfl⟩
    · simp only [Bool.not_eq_true] at ha
      simp only [ha, Bool.false_eq_true, if_false] at h
      by_cases ht : t > timeout
      · simp [ht] at h
      · simp only [ht, if_false] at h
        rcases ih h with ⟨h1, h2⟩
        exact ⟨h1, by omega⟩

theorem lockLoop_some_le {avail : Nat → Bool} {timeout : Nat} :
    ∀ {fuel t u : Nat}, fuel + t = timeout + 2 →
      lockLoop avail timeout fuel t = some u → u ≤ timeout + 1 := by
  intro fuel
  induction fuel with
  | zero => intro t u _ h; simp [lockLoop] at h
  | succ fuel ih =>
    intro t u hft h
    rw [lockLoop.eq_def] at h
    by_cases ha : avail t = true
    · simp only [ha, if_true] at h
      cases h
      omega
    · simp only [Bool.not_eq_true] at ha
      simp only [ha, Bool.false_eq_true, if_false] at h
      by_cases ht : t > timeout
      · simp [ht] at h
      · simp only [ht, if_false] at h
        exact ih (by omega) h

theorem lockLoop_none_iff {avail : Nat → Bool} {timeout : Nat} :
    ∀ {fuel t : Nat}, fuel + t = timeout + 2 →
      (lockLoop avail timeout fuel t = none ↔
        ∀ u, t ≤ u → u ≤ timeout + 1 → avail u = false) := by
  intro fuel
  induction fuel with
  | zero =>
    intro t hft
    constructor
    · intro _ u hu1 hu2
      omega
    · intro _
      simp [lockLoop]
  | succ fuel ih =>
    intro t hft
    rw [lockLoop.eq_def]
    by_cases ha : avail t = true
    · simp only [ha, if_true]
      constructor
      · intro h
        cases h
      · intro h
        have := h t le_rfl (by omega)
        rw [ha] at this
        cases this
    · simp only [Bool.not_eq_true] at ha
      simp only [ha, Bool.false_eq_true, if_false]
      by_cases ht : t > timeout
      · simp only [ht, if_true]
        constructor
        · intro _ u hu1 hu2
          have : u = t := by omega
          rw [this]
          exact ha
        · intro _
          trivial
      · simp only [ht, if_false]
        rw [ih (by omega)]
        constructor
        · intro h u hu1 hu2
          by_cases hut : u = t
          · rw [hut]; exact ha
          · exact h u (by omega) hu2
        · intro h u hu1 hu2
          exact h u (by omega) hu2

/-- Inversion of one `verify_chain` step: it succeeds exactly when the file
parses, the `prev` link matches, and the recomputed hash equals the stored
root, which it returns. -/
theorem checkFile_ok_iff (prevHash : String) (f : WalFile) (r : String) :
    checkFile prevHash f = Except.ok r ↔
      ∃ ds fr, f.content = Json.obj ds ∧
        lookupF "frame" ds = some (Json.obj fr) ∧
        lookupF "prev" fr = some (Json.str prevHash) ∧
        lookupF "root" ds = some (Json.str r) ∧
        r = computeEntryHash (Json.obj fr) := by
  constructor
  · intro hc
    unfold checkFile at hc
    cases hcontent : f.content with
    | obj ds =>
      rw [hcontent] at hc
      try dsimp only at hc
      cases hframe : lookupF "frame" ds with
      | none => rw [hframe] at hc; cases hc
      | some frame =>
        rw [hframe] at hc
        try dsimp only at hc
        cases frame with
        | obj fr =>
          try dsimp only at hc
          cases hprev : lookupF "prev" fr with
          | none => rw [hprev] at hc; cases hc
          | some pv =>
            rw [hprev] at hc
            try dsimp only at hc
            cases pv with
            | str p =>
              try dsimp only at hc
              by_cases hp : p = prevHash
              · rw [if_pos hp] at hc
                cases hroot : lookupF "root" ds with
                | none => rw [hroot] at hc; cases hc
                | some rv =>
                  rw [hroot] at hc
                  try dsimp only at hc
                  cases rv with
                  | str r0 =>
                    try dsimp only at hc
                    by_cases hr : r0 = computeEntryHash (Json.obj fr)
                    · rw [if_pos hr] at hc
                      have hr0 : r0 = r := by
                        simpa using hc
                      subst hr0
                      subst hp
                      exact ⟨ds, fr, rfl, hframe, hprev, hroot, hr⟩
                    · rw [if_neg hr] at hc
                      cases hc
                  | null => cases hc
                  | bool b => cases hc
                  | num n => cases hc
                  | arr xs => cases hc
                  | obj gs => cases hc
              · rw [if_neg hp] at hc
                cases hc
            | null => cases hc
            | bool b => cases hc
            | num n => cases hc
            | arr xs => cases hc
            | obj gs => cases hc
        | null => cases hc
        | bool b => cases hc
        | num n => cases hc
        | str s => cases hc
        | arr xs => cases hc
    | null => rw [hcontent] at hc; cases hc
    | bool b => rw [hcontent] at hc; cases hc
    | num n => rw [hcontent] at hc; cases hc
    | str s => rw [hcontent] at hc; cases hc
    | arr xs => rw [hcontent] at hc; cases hc
  · intro hh
    rcases hh with ⟨ds, fr, hcontent, hframe, hprev, hroot, hr⟩
    unfold checkFile
    rw [hcontent]
    try dsimp only
    rw [hframe]
    try dsimp only
    rw [hprev]
    try dsimp only
    rw [if_pos rfl]
    try dsimp only
    rw [hroot]
    try dsimp only
    rw [if_pos hr]

/-- The `verify_chain` loop succeeds exactly on well-formed chains, returning
the final stored root. -/
theorem verifyChainGo_ok_iff :
    ∀ (files : List WalFile) (prevHash h : String),
      verifyChainGo prevHash files = Except.ok h ↔ chainValidFrom prevHash h files := by
  intro files
  induction files with
  | nil =>
    intro prevHash h
    constructor
    · intro hh
      have hph : prevHash = h := by simpa [verifyChainGo] using hh
      simp [chainValidFrom, hph]
    · intro hh
      have hph : h = prevHash := hh
      simp [verifyChainGo, hph]
  | cons f rest ih =>
    intro prevHash h
    rw [show verifyChainGo prevHash (f :: rest) =
      (match checkFile prevHash f with
       | .error e => .error e
       | .ok h0 => verifyChainGo h0 rest) from rfl]
    constructor
    · intro hh
      cases hc : checkFile prevHash f with
      | error e => rw [hc] at hh; cases hh
      | ok h0 =>
        rw [hc] at hh
        rcases (checkFile_ok_iff prevHash f h0).mp hc with
          ⟨ds, fr, hcontent, hframe, hprev, hroot, hr⟩
        exact ⟨ds, fr, h0, hcontent, hframe, hprev, hroot, hr, (ih _ _).mp hh⟩
    · intro hh
      rcases hh with ⟨ds, fr, r, hcontent, hframe, hprev, hroot, hr, hrest⟩
      have hcf : checkFile prevHash f = Except.ok r :=
        (checkFile_ok_iff prevHash f r).mpr ⟨ds, fr, hcontent, hframe, hprev, hroot, hr⟩
      rw [hcf]
      exact (ih _ _).mpr hrest

end Rtt

namespace Rtt

/-! ## The claims -/

/-- C4: for every policy and pair of symbol addresses, `allowed` returns true
iff at least one rule in the policy's `allow` list has glob patterns matching
both addresses (fnmatch semantics, `*` crossing path separators), a rule's
missing `from`/`to` defaulting to `*`; an empty or absent `allow` list denies
everything. -/
theorem c4_policy_allowed : ∀ (policy : Json) (src dst : String),
    (allowed policy src dst = true ↔
      ∃ r ∈ allowRules policy, ruleMatches src dst r = true) ∧
    (allowRules policy = [] → allowed policy src dst = false) ∧
    (∀ rf : List (String × Json), ruleMatches src dst (Json.obj rf) =
      (fnmatchB src (rulePat rf "from") && fnmatchB dst (rulePat rf "to"))) ∧
    (∀ rf : List (String × Json), lookupF "from" rf = none → rulePat rf "from" = "*") ∧
    (∀ rf : List (String × Json), lookupF "to" rf = none → rulePat rf "to" = "*") := by
  intro policy src dst
  refine ⟨List.any_eq_true, ?_, fun rf => rfl, fun rf h => ?_, fun rf h => ?_⟩
  · intro h
    unfold allowed
    rw [h]
    rfl
  · unfold rulePat
    rw [h]
  · unfold rulePat
    rw [h]

/-- C4 witness: a policy with no rules denies a concrete route. -/
theorem c4_witness :
    allowed (Json.obj []) "rtt://any/api/a@1.0.0" "rtt://any/api/b@1.0.0" = false :=
  (c4_policy_allowed (Json.obj []) "rtt://any/api/a@1.0.0" "rtt://any/api/b@1.0.0").2.1 rfl

/-- C6: JSON values that differ only in object key order normalize to
identical canonical bytes and identical SHA-256 CAS keys, and ingesting the
same logical content twice writes the same key and bytes and leaves the
store exactly as after the first ingestion. -/
theorem c6_canonical_dedup : ∀ (a b : Json) (store : List (String × String)),
    nodupKeys a = true → nodupKeys b = true → jeq a b = true →
    normalize a = normalize b ∧ casKey a = casKey b ∧
    ingestCas (ingestCas store a).2 b = ingestCas store a := by
  intro a b store ha hb hj
  have hc : canon a = canon b := canon_eq_of_jeq ha hb hj
  have hn : normalize a = normalize b := by
    unfold normalize dumpsCanonical
    rw [hc]
  have hk : casKey a = casKey b := by
    unfold casKey
    rw [hn]
  refine ⟨hn, hk, ?_⟩
  unfold ingestCas
  rw [← hk, ← hn, setStore_idem]

/-- C6 witness: the two key-reordered sample objects share bytes and key,
and re-ingesting is a no-op. -/
theorem c6_witness :
    normalize exJsonA = normalize exJsonB ∧ casKey exJsonA = casKey exJsonB ∧
    ingestCas (ingestCas [] exJsonA).2 exJsonB = ingestCas [] exJsonA :=
  c6_canonical_dedup exJsonA exJsonB [] rfl rfl rfl

/-- C7 counterexample: the scanner's index write is a single direct
`write_text`, not a temp-file-plus-rename update, refuting the claim at the
concrete index content it writes. -/
theorem c7_counterexample :
    atomicTempRename symbolIndexPath (scanIndexWrite "index-data") = false := rfl

/-- C7 (amended): the scanner writes the aggregate symbol index with one
direct write to the index path (no temp file, no rename), unlike the WAL
`LATEST` pointer and the desired-state cache, whose updates are
write-temp-then-atomic-rename. -/
theorem c7_scan_write_direct : ∀ d : String,
    scanIndexWrite d = [FsOp.write symbolIndexPath d] ∧
    atomicTempRename symbolIndexPath (scanIndexWrite d) = false ∧
    (∀ h : String, atomicTempRename "wal/LATEST" (writeLatestOps h) = true) ∧
    (∀ c : String, atomicTempRename "cache/desired.graph.json" (writeCacheOps c) = true) := by
  intro d
  exact ⟨rfl, rfl, fun h => rfl, fun c => rfl⟩

end Rtt

namespace Rtt

/-- C8 counterexample: an invocation whose plan argument is given but whose
plan carries a non-Ed25519 signature exits 2 — a `SignatureError`, not a
usage error — refuting "2 only on usage error". -/
theorem c8_counterexample :
    mainExit PlanArg.given
      (applyPlan exEnv true freeLock 300 exState0 none true exPlanBadAlg 1000).1 = 2 ∧
    isUsageError PlanArg.given = false := by
  exact ⟨rfl, rfl⟩

/-- C8 (amended): the apply CLI exits 0 on success, 1 on validation failure,
2 on a usage error or a signature-verification failure, and 99 on any other
error (authentication failures, WAL lock or corruption errors, and unexpected
exceptions). -/
theorem c8_exit_codes : ∀ (arg : PlanArg) (res : Except RttErr String),
    mainExit arg res = (if isUsageError arg = true then 2 else applyExitCode res) ∧
    (applyExitCode res = 0 ↔ ∃ h, res = Except.ok h) ∧
    (applyExitCode res = 1 ↔ res = Except.error RttErr.validationError) ∧
    (applyExitCode res = 2 ↔ res = Except.error RttErr.signatureError) ∧
    (applyExitCode res = 99 ↔
      (res = Except.error RttErr.authenticationError ∨ res = Except.error RttErr.walLock ∨
       res = Except.error RttErr.walCorruption ∨ res = Except.error RttErr.other)) := by
  intro arg res
  refine ⟨?_, ?_, ?_, ?_, ?_⟩
  · cases arg with
    | given => rfl
    | absent => rfl
    | fromLatestFile rd => cases rd <;> rfl
  · cases res with
    | ok s => simp [applyExitCode]
    | error e => cases e <;> simp [applyExitCode]
  · cases res with
    | ok s => simp [applyExitCode]
    | error e => cases e <;> simp [applyExitCode]
  · cases res with
    | ok s => simp [applyExitCode]
    | error e => cases e <;> simp [applyExitCode]
  · cases res with
    | ok s => simp [applyExitCode]
    | error e => cases e <;> simp [applyExitCode]

/-- C9: lock acquisition terminates for every timeout: it either returns the
lock at some attempt within the bound, or — exactly when the lock is never
available during the bounded wait — reports `WALLockError`, in which case the
WAL append returns that error with the directory unchanged. -/
theorem c9_lock_bounded : ∀ (avail : Nat → Bool) (timeout : Nat) (st : WalState)
    (entry : List (String × Json)) (now : Int),
    (acquireLock avail timeout = none ↔ ∀ u, u ≤ timeout + 1 → avail u = false) ∧
    (∀ u, acquireLock avail timeout = some u → avail u = true ∧ u ≤ timeout + 1) ∧
    (acquireLock avail timeout = none →
      appendEntry avail timeout st entry now = (Except.error WalErr.lock, st)) := by
  intro avail timeout st entry now
  refine ⟨?_, ?_, ?_⟩
  · have h := @lockLoop_none_iff avail timeout (timeout + 2) 0 (by omega)
    unfold acquireLock
    rw [h]
    constructor
    · intro hall u hu
      exact hall u (Nat.zero_le u) hu
    · intro hall u _ hu
      exact hall u hu
  · intro u h
    unfold acquireLock at h
    exact ⟨(lockLoop_some h).1,
      @lockLoop_some_le avail timeout (timeout + 2) 0 u (by omega) h⟩
  · intro h
    unfold appendEntry
    rw [h]

/-- C9 witness: with a lock that is never free and a 3-decisecond timeout,
the append reports the lock error and writes nothing. -/
theorem c9_witness :
    appendEntry (fun _ => false) 3 exState0 exEntry1 1000 =
      (Except.error WalErr.lock, exState0) :=
  (c9_lock_bounded (fun _ => false) 3 exState0 exEntry1 1000).2.2 rfl

end Rtt

namespace Rtt

/-- C1 counterexample: the first entry accepted into an empty WAL stores a
root different from `sha256(prev_hex + sha256(canonical(frame))_hex)` — the
code hashes with double SHA-256 over the frame alone (`prev` inside it), not
with hex-concatenation chaining. -/
theorem c1_counterexample :
    (appendEntry freeLock 300 exState0 exEntry1 1000).1 = Except.ok exRoot1 ∧
    exRoot1 ≠ specChainRoot (readLatest exState0) (Json.obj exFrame1) := by
  refine ⟨by rfl, by decide⟩

/-- C1 (amended): for every WAL entry accepted by `append_entry`, the stored
root equals `sha256(sha256(canonical(frame)))` in hex — the double SHA-256 of
the canonical JSON bytes of the final frame, which carries `prev` (the
previous root) as an ordinary field — and the entry file and `LATEST` record
exactly that root. -/
theorem c1_root_is_double_sha256 : ∀ (avail : Nat → Bool) (timeout : Nat)
    (st : WalState) (entry : List (String × Json)) (now : Int) (h : String)
    (st' : WalState),
    appendEntry avail timeout st entry now = (Except.ok h, st') →
    h = computeSecureHash (strBytes (dumpsCanonical (Json.obj (finalFrame st entry now)))) ∧
    ∃ t : Int,
      tsInt ((lookupF "ts" (finalFrame st entry now)).getD Json.null) = some t ∧
      st'.files = writeFileL st.files (toString t ++ "-" ++ strTake h 12 ++ ".wal.json")
        (Json.obj [("root", Json.str h), ("frame", Json.obj (finalFrame st entry now))]) ∧
      st'.latest = some h := by
  intro avail timeout st entry now h st' hap
  unfold appendEntry at hap
  cases hacq : acquireLock avail timeout with
  | none =>
    rw [hacq] at hap
    have hfst := congrArg Prod.fst hap
    simp at hfst
  | some fd =>
    rw [hacq] at hap
    dsimp only at hap
    cases hcore : appendEntryCore st entry now with
    | error e =>
      rw [hcore] at hap
      have hfst := congrArg Prod.fst hap
      simp at hfst
    | ok pr =>
      rw [hcore] at hap
      cases pr with
      | mk h0 st0 =>
        dsimp only at hap
        rw [Prod.mk.injEq] at hap
        obtain ⟨hap1, hap2⟩ := hap
        have hh0 : h0 = h := Except.ok.inj hap1
        subst hh0
        subst hap2
        unfold appendEntryCore at hcore
        dsimp only at hcore
        by_cases hcond : readLatest st ≠ "GENESIS" ∧ hasRoot st.files (readLatest st) = false
        · rw [if_pos hcond] at hcore
          cases hcore
        · rw [if_neg hcond] at hcore
          cases hts : tsInt ((lookupF "ts" (finalFrame st entry now)).getD Json.null) with
          | none =>
            rw [hts] at hcore
            cases hcore
          | some t =>
            rw [hts] at hcore
            dsimp only at hcore
            rw [Except.ok.injEq, Prod.mk.injEq] at hcore
            obtain ⟨hch, hst⟩ := hcore
            subst hch
            refine ⟨rfl, t, rfl, ?_, ?_⟩
            · rw [← hst]
            · rw [← hst]

/-- C1 amended witness: the concrete first append stores exactly the double
SHA-256 of its frame's canonical bytes. -/
theorem c1_witness :
    exRoot1 = computeSecureHash (strBytes (dumpsCanonical (Json.obj exFrame1))) ∧
    ∃ t : Int,
      tsInt ((lookupF "ts" exFrame1).getD Json.null) = some t ∧
      exState1.files = writeFileL exState0.files
        (toString t ++ "-" ++ strTake exRoot1 12 ++ ".wal.json")
        (Json.obj [("root", Json.str exRoot1), ("frame", Json.obj exFrame1)]) ∧
      exState1.latest = some exRoot1 :=
  c1_root_is_double_sha256 freeLock 300 exState0 exEntry1 1000 exRoot1 exState1 (by rfl)

end Rtt

namespace Rtt

/-- C2 counterexample: a WAL directory holding one internally valid entry but
no `LATEST` file verifies successfully even though `LATEST` (read as
`GENESIS`) does not equal the last entry's root — refuting "raises unless the
LATEST pointer equals the last entry's root". -/
theorem c2_counterexample :
    verifyChain exState1NoLatest = Except.ok true ∧
    chainValidFrom "GENESIS" exRoot1 (List.insertionSort fileLe exState1NoLatest.files) ∧
    readLatest exState1NoLatest ≠ exRoot1 :=
  ⟨by rfl, (verifyChainGo_ok_iff _ _ _).mp (by rfl), by decide⟩

/-- C2 (amended): `verify_chain` replays all entries in filename order and
returns `True` exactly when every entry's `frame.prev` equals the previous
entry's root (`GENESIS` first), every recomputed root matches the stored one,
and the `LATEST` pointer equals the last entry's root **or reads as
`GENESIS`** (absent or empty); any other configuration raises.  (An empty
directory also verifies.) -/
theorem c2_verify_chain_characterization : ∀ st : WalState,
    verifyChain st = Except.ok true ↔
      (List.insertionSort fileLe st.files = [] ∨
       ∃ last, chainValidFrom "GENESIS" last (List.insertionSort fileLe st.files) ∧
         (readLatest st = last ∨ readLatest st = "GENESIS")) := by
  intro st
  unfold verifyChain
  cases hfs : List.insertionSort fileLe st.files with
  | nil => simp
  | cons f rest =>
    dsimp only
    cases hgo : verifyChainGo "GENESIS" (f :: rest) with
    | error e =>
      constructor
      · intro hh
        cases hh
      · intro hh
        rcases hh with hh | ⟨last, hcv, _⟩
        · cases hh
        · have hok := (verifyChainGo_ok_iff (f :: rest) "GENESIS" last).mpr hcv
          rw [hgo] at hok
          cases hok
    | ok lastHash =>
      dsimp only
      constructor
      · intro hh
        by_cases hcond : readLatest st ≠ lastHash ∧ readLatest st ≠ "GENESIS"
        · rw [if_pos hcond] at hh
          cases hh
        · refine Or.inr ⟨lastHash, (verifyChainGo_ok_iff _ _ _).mp hgo, ?_⟩
          tauto
      · intro hh
        rcases hh with hh | ⟨last, hcv, hl⟩
        · cases hh
        · have hok := (verifyChainGo_ok_iff (f :: rest) "GENESIS" last).mpr hcv
          rw [hgo] at hok
          have hlast : last = lastHash := (Except.ok.inj hok).symm
          subst hlast
          have hcond : ¬(readLatest st ≠ last ∧ readLatest st ≠ "GENESIS") := by tauto
          rw [if_neg hcond]

/-- C2 witness: the example directory with a correct `LATEST` passes, and its
characterization holds with the stored root as the last root. -/
theorem c2_witness :
    verifyChain exState1 = Except.ok true ∧ readLatest exState1 = exRoot1 :=
  ⟨(c2_verify_chain_characterization exState1).mpr
      (Or.inr ⟨exRoot1, (verifyChainGo_ok_iff _ _ _).mp (by rfl), Or.inl (by rfl)⟩),
   by rfl⟩

end Rtt

namespace Rtt

/-- C3: plan-integrity verification raises `ValidationError` exactly when the
stored `plan_id` differs from `"sha256-" + hex(sha256(canonical bytes of the
plan without plan_id/sign))`, raises nothing else, and an apply that fails
this check returns before any WAL write: the directory, `LATEST` and the
desired-state cache are unchanged. -/
theorem c3_plan_integrity : ∀ (env : AuthEnv) (requireSig : Bool)
    (avail : Nat → Bool) (timeout : Nat) (st : WalState) (cache : Option Json)
    (cacheOk : Bool) (plan : List (String × Json)) (now : Int),
    ((∃ e, verifyPlanIntegrity plan = Except.error e) ↔
      storedPlanId plan ≠ some (computedPlanId plan)) ∧
    (∀ e, verifyPlanIntegrity plan = Except.error e → e = RttErr.validationError) ∧
    (verifyPlanIntegrity plan = Except.error RttErr.validationError →
      applyPlan env requireSig avail timeout st cache cacheOk plan now =
        (Except.error RttErr.validationError, st, cache)) := by
  intro env requireSig avail timeout st cache cacheOk plan now
  refine ⟨?_, ?_, ?_⟩
  · unfold verifyPlanIntegrity
    by_cases hk : storedPlanId plan = some (computedPlanId plan)
    · rw [if_pos hk]
      simp [hk]
    · rw [if_neg hk]
      simp [hk]
  · intro e he
    unfold verifyPlanIntegrity at he
    by_cases hk : storedPlanId plan = some (computedPlanId plan)
    · rw [if_pos hk] at he
      cases he
    · rw [if_neg hk] at he
      exact (Except.error.inj he).symm
  · intro he
    have hvc : verifyPlanComplete env requireSig plan =
        Except.error RttErr.validationError := by
      unfold verifyPlanComplete
      rw [he]
    unfold applyPlan
    rw [hvc]

/-- C3 witness: applying the concrete tampered plan fails validation and
leaves the empty WAL and cache untouched. -/
theorem c3_witness :
    applyPlan exEnv true freeLock 300 exState0 none true exPlanTampered 1000 =
      (Except.error RttErr.validationError, exState0, none) :=
  (c3_plan_integrity exEnv true freeLock 300 exState0 none true exPlanTampered 1000).2.2
    (by rfl)

/-- C10: when the WAL append inside `apply_plan` succeeds, a failure of the
subsequent desired-state cache write is caught and ignored: the apply still
returns the WAL entry hash, leaves the cache as it was, and the invocation
exits 0. -/
theorem c10_cache_failure_ignored : ∀ (env : AuthEnv) (requireSig : Bool)
    (avail : Nat → Bool) (timeout : Nat) (st : WalState) (cache : Option Json)
    (plan : List (String × Json)) (now : Int) (h : String),
    (applyPlan env requireSig avail timeout st cache true plan now).1 = Except.ok h →
    applyPlan env requireSig avail timeout st cache false plan now =
      (Except.ok h, (applyPlan env requireSig avail timeout st cache true plan now).2.1,
        cache) ∧
    mainExit PlanArg.given
      (applyPlan env requireSig avail timeout st cache false plan now).1 = 0 := by
  intro env requireSig avail timeout st cache plan now h hok
  unfold applyPlan at hok ⊢
  generalize hvc : verifyPlanComplete env requireSig plan = vc at hok ⊢
  cases vc with
  | error e =>
    cases hok
  | ok b =>
    dsimp only at hok ⊢
    generalize happ : appendEntry avail timeout st
        [("ts", Json.num now),
         ("plan_id", (lookupF "plan_id" plan).getD (Json.str "unknown")),
         ("apply", (lookupF "routes_add" plan).getD (Json.arr [])),
         ("remove", (lookupF "routes_del" plan).getD (Json.arr []))] now = ap at hok ⊢
    cases ap with
    | mk res st' =>
      cases res with
      | error we =>
        cases hok
      | ok h0 =>
        dsimp only at hok ⊢
        have hh : h0 = h := Except.ok.inj hok
        subst hh
        exact ⟨rfl, rfl⟩

/-- C10 witness: the concrete successful apply with a failing cache write
still returns the WAL hash, keeps the empty cache, and exits 0. -/
theorem c10_witness :
    applyPlan exEnv false freeLock 300 exState0 none false exPlanUnsigned 1000 =
      (Except.ok exApplyRoot,
        (applyPlan exEnv false freeLock 300 exState0 none true exPlanUnsigned 1000).2.1,
        none) ∧
    mainExit PlanArg.given
      (applyPlan exEnv false freeLock 300 exState0 none false exPlanUnsigned 1000).1 = 0 :=
  c10_cache_failure_ignored exEnv false freeLock 300 exState0 none exPlanUnsigned 1000
    exApplyRoot (by rfl)

end Rtt

namespace Rtt

/-- C5: for a plan carrying a (non-empty) `sign` block that passes the hash
check, verification raises `SignatureError` when the algorithm is not
`ed25519` or when the Ed25519 check over the canonical plan bytes (sign
removed) fails, and raises `AuthenticationError` when the key id is empty or
absent from the trusted allowlist or its public-key file is missing; and when
signatures are not required, a plan with no `sign` block passes with only the
hash-integrity check. -/
theorem c5_signature_errors : ∀ (env : AuthEnv) (requireSig : Bool)
    (plan plan2 : List (String × Json)) (sigInfo : List (String × Json)),
    (lookupF "sign" plan = some (Json.obj sigInfo) → sigInfo ≠ [] →
      verifyPlanIntegrity plan = Except.ok true →
      ((sigAlg sigInfo ≠ some "ed25519" →
          verifyPlanComplete env requireSig plan = Except.error RttErr.signatureError) ∧
       (∀ k, sigAlg sigInfo = some "ed25519" → sigKeyId sigInfo = some k →
          (k = "" ∨ k ∉ env.trusted) →
          verifyPlanComplete env requireSig plan =
            Except.error RttErr.authenticationError) ∧
       (∀ k, sigAlg sigInfo = some "ed25519" → sigKeyId sigInfo = some k →
          k ≠ "" → k ∈ env.trusted → lookupKeyFile k env.keyFiles = none →
          verifyPlanComplete env requireSig plan =
            Except.error RttErr.authenticationError) ∧
       (∀ k content pub, sigAlg sigInfo = some "ed25519" → sigKeyId sigInfo = some k →
          k ≠ "" → k ∈ env.trusted → lookupKeyFile k env.keyFiles = some content →
          pubOf content = some pub →
          env.verifySig pub (dumpsCanonical (Json.obj (removeF "sign" plan)))
            ((lookupF "sig" sigInfo).getD (Json.str "")) = false →
          verifyPlanComplete env requireSig plan =
            Except.error RttErr.signatureError))) ∧
    (lookupF "sign" plan2 = none → verifyPlanIntegrity plan2 = Except.ok true →
      verifyPlanComplete env false plan2 = Except.ok true) := by
  intro env requireSig plan plan2 sigInfo
  constructor
  · intro hsign hne hint
    have htruthy : jsonTruthy (Json.obj sigInfo) = true := by
      cases sigInfo with
      | nil => exact absurd rfl hne
      | cons a l => rfl
    have hvc : verifyPlanComplete env requireSig plan =
        verifyPlanSignature env (removeF "sign" plan) sigInfo := by
      unfold verifyPlanComplete
      rw [hint]
      dsimp only
      rw [hsign]
      rw [if_pos (by simp)]
      dsimp only
      rw [if_pos htruthy]
    refine ⟨?_, ?_, ?_, ?_⟩
    · intro halg
      rw [hvc]
      unfold verifyPlanSignature
      cases hag : (lookupF "alg" sigInfo).getD (Json.str "") with
      | str a =>
        have hsa : sigAlg sigInfo = some a := by
          unfold sigAlg
          rw [hag]
        by_cases hae : a = "ed25519"
        · subst hae
          exact absurd hsa halg
        · dsimp only
          rw [if_neg hae]
      | null => rfl
      | bool b => rfl
      | num n => rfl
      | arr xs => rfl
      | obj fs => rfl
    · intro k halg hkid hbad
      rw [hvc]
      unfold verifyPlanSignature
      unfold sigAlg at halg
      cases hag : (lookupF "alg" sigInfo).getD (Json.str "") with
      | str a =>
        rw [hag] at halg
        have ha : a = "ed25519" := by simpa using halg
        subst ha
        dsimp only
        rw [if_pos rfl]
        unfold sigKeyId at hkid
        cases hkg : (lookupF "key_id" sigInfo).getD (Json.str "") with
        | str k0 =>
          rw [hkg] at hkid
          have hk : k0 = k := by simpa using hkid
          subst hk
          dsimp only
          rw [if_pos hbad]
        | null => first
          | exact Option.noConfusion hkid
          | (rw [hkg] at hkid; exact Option.noConfusion hkid)
          | rw [hkg] at hkid
        | bool b => first
          | exact Option.noConfusion hkid
          | (rw [hkg] at hkid; exact Option.noConfusion hkid)
          | rw [hkg] at hkid
        | num n => first
          | exact Option.noConfusion hkid
          | (rw [hkg] at hkid; exact Option.noConfusion hkid)
          | rw [hkg] at hkid
        | arr xs => first
          | exact Option.noConfusion hkid
          | (rw [hkg] at hkid; exact Option.noConfusion hkid)
          | rw [hkg] at hkid
        | obj fs => first
          | exact Option.noConfusion hkid
          | (rw [hkg] at hkid; exact Option.noConfusion hkid)
          | rw [hkg] at hkid
      | null => first
          | exact Option.noConfusion halg
          | (rw [hag] at halg; exact Option.noConfusion halg)
          | rw [hag] at halg
      | bool b => first
          | exact Option.noConfusion halg
          | (rw [hag] at halg; exact Option.noConfusion halg)
          | rw [hag] at halg
      | num n => first
          | exact Option.noConfusion halg
          | (rw [hag] at halg; exact Option.noConfusion halg)
          | rw [hag] at halg
      | arr xs => first
          | exact Option.noConfusion halg
          | (rw [hag] at halg; exact Option.noConfusion halg)
          | rw [hag] at halg
      | obj fs => first
          | exact Option.noConfusion halg
          | (rw [hag] at halg; exact Option.noConfusion halg)
          | rw [hag] at halg
    · intro k halg hkid hkne hktr hkf
      rw [hvc]
      unfold verifyPlanSignature
      unfold sigAlg at halg
      cases hag : (lookupF "alg" sigInfo).getD (Json.str "") with
      | str a =>
        rw [hag] at halg
        have ha : a = "ed25519" := by simpa using halg
        subst ha
        dsimp only
        rw [if_pos rfl]
        unfold sigKeyId at hkid
        cases hkg : (lookupF "key_id" sigInfo).getD (Json.str "") with
        | str k0 =>
          rw [hkg] at hkid
          have hk : k0 = k := by simpa using hkid
          subst hk
          dsimp only
          rw [if_neg (by tauto)]
          rw [hkf]
        | null => first
          | exact Option.noConfusion hkid
          | (rw [hkg] at hkid; exact Option.noConfusion hkid)
          | rw [hkg] at hkid
        | bool b => first
          | exact Option.noConfusion hkid
          | (rw [hkg] at hkid; exact Option.noConfusion hkid)
          | rw [hkg] at hkid
        | num n => first
          | exact Option.noConfusion hkid
          | (rw [hkg] at hkid; exact Option.noConfusion hkid)
          | rw [hkg] at hkid
        | arr xs => first
          | exact Option.noConfusion hkid
          | (rw [hkg] at hkid; exact Option.noConfusion hkid)
          | rw [hkg] at hkid
        | obj fs => first
          | exact Option.noConfusion hkid
          | (rw [hkg] at hkid; exact Option.noConfusion hkid)
          | rw [hkg] at hkid
      | null => first
          | exact Option.noConfusion halg
          | (rw [hag] at halg; exact Option.noConfusion halg)
          | rw [hag] at halg
      | bool b => first
          | exact Option.noConfusion halg
          | (rw [hag] at halg; exact Option.noConfusion halg)
          | rw [hag] at halg
      | num n => first
          | exact Option.noConfusion halg
          | (rw [hag] at halg; exact Option.noConfusion halg)
          | rw [hag] at halg
      | arr xs => first
          | exact Option.noConfusion halg
          | (rw [hag] at halg; exact Option.noConfusion halg)
          | rw [hag] at halg
      | obj fs => first
          | exact Option.noConfusion halg
          | (rw [hag] at halg; exact Option.noConfusion halg)
          | rw [hag] at halg
    · intro k content pub halg hkid hkne hktr hkf hpub hvf
      rw [hvc]
      unfold verifyPlanSignature
      unfold sigAlg at halg
      cases hag : (lookupF "alg" sigInfo).getD (Json.str "") with
      | str a =>
        rw [hag] at halg
        have ha : a = "ed25519" := by simpa using halg
        subst ha
        dsimp only
        rw [if_pos rfl]
        unfold sigKeyId at hkid
        cases hkg : (lookupF "key_id" sigInfo).getD (Json.str "") with
        | str k0 =>
          rw [hkg] at hkid
          have hk : k0 = k := by simpa using hkid
          subst hk
          dsimp only
          rw [if_neg (by tauto)]
          rw [hkf]
          dsimp only
          rw [hpub]
          dsimp only
          rw [hvf]
          rfl
        | null => first
          | exact Option.noConfusion hkid
          | (rw [hkg] at hkid; exact Option.noConfusion hkid)
          | rw [hkg] at hkid
        | bool b => first
          | exact Option.noConfusion hkid
          | (rw [hkg] at hkid; exact Option.noConfusion hkid)
          | rw [hkg] at hkid
        | num n => first
          | exact Option.noConfusion hkid
          | (rw [hkg] at hkid; exact Option.noConfusion hkid)
          | rw [hkg] at hkid
        | arr xs => first
          | exact Option.noConfusion hkid
          | (rw [hkg] at hkid; exact Option.noConfusion hkid)
          | rw [hkg] at hkid
        | obj fs => first
          | exact Option.noConfusion hkid
          | (rw [hkg] at hkid; exact Option.noConfusion hkid)
          | rw [hkg] at hkid
      | null => first
          | exact Option.noConfusion halg
          | (rw [hag] at halg; exact Option.noConfusion halg)
          | rw [hag] at halg
      | bool b => first
          | exact Option.noConfusion halg
          | (rw [hag] at halg; exact Option.noConfusion halg)
          | rw [hag] at halg
      | num n => first
          | exact Option.noConfusion halg
          | (rw [hag] at halg; exact Option.noConfusion halg)
          | rw [hag] at halg
      | arr xs => first
          | exact Option.noConfusion halg
          | (rw [hag] at halg; exact Option.noConfusion halg)
          | rw [hag] at halg
      | obj fs => first
          | exact Option.noConfusion halg
          | (rw [hag] at halg; exact Option.noConfusion halg)
          | rw [hag] at halg
  · intro hnone hint2
    unfold verifyPlanComplete
    rw [hint2]
    dsimp only
    rw [hnone]
    rfl

/-- C5 witness: the hash-valid plan signed with algorithm `rsa` is rejected
with `SignatureError`, and the unsigned hash-valid plan passes when
signatures are not required. -/
theorem c5_witness :
    verifyPlanComplete exEnv true exPlanBadAlg = Except.error RttErr.signatureError ∧
    verifyPlanComplete exEnv false exPlanUnsigned = Except.ok true :=
  ⟨((c5_signature_errors exEnv true exPlanBadAlg exPlanUnsigned
        [("alg", Json.str "rsa")]).1 rfl (List.cons_ne_nil _ _) (by rfl)).1 (by decide),
   (c5_signature_errors exEnv true exPlanBadAlg exPlanUnsigned
        [("alg", Json.str "rsa")]).2 rfl (by rfl)⟩

end Rtt
